import Mathlib

/-!
Shallow embedding of the voice_input push-to-talk utility
(`src/voice_input/{app,audio,transcriber,text_output,window,config}.py`)
together with theorems settling the specification claims.

Modelling conventions:
* Python floats that carry time stamps and audio samples are modelled as
  rationals (`ℚ`); machine behaviour relevant to the claims is integral
  or structural, never dependent on binary rounding.
* Stateful methods of `VoiceInputApp` become pure functions from the
  session state (plus the inputs the method reads from the environment)
  to the successor state, the list of backend side effects performed,
  and the returned value; a raised exception is an `Except.error` /
  `Option String` component.
* Python strings handled character by character are modelled as
  `List Char`.
-/

namespace VoiceInput

/-- `ActiveWindow` from `window.py`: frozen dataclass with fields
`handle : int` and `title : str = ""`. -/
structure ActiveWindow where
  handle : Int
  title : String
deriving DecidableEq, Repr

/-- The `__eq__` generated for the frozen dataclass `ActiveWindow`:
Python dataclass equality compares the tuple of all fields, i.e. both
`handle` and `title`. -/
def activeWindowEq (a b : ActiveWindow) : Bool :=
  a.handle == b.handle && a.title == b.title

/-- Backend side effects performed by `VoiceInputApp` methods, in the
order the Python code performs them. -/
inductive AppEvent where
  /-- `self.window_tracker.capture()` -/
  | captureWindow
  /-- `self.recorder.start()` was invoked (it may raise) -/
  | recorderStart
  /-- `threading.Thread(target=self._stop_and_transcribe, ...).start()` -/
  | spawnFinalize
deriving DecidableEq, Repr

/-- The session state of `VoiceInputApp`: `_is_recording`,
`_last_release_at` (a monotonic-clock stamp, initially `0.0`) and
`_active_window`. -/
structure AppState where
  isRecording : Bool
  lastReleaseAt : ℚ
  activeWindow : Option ActiveWindow
deriving DecidableEq, Repr

/-- `VoiceInputApp.start_recording` (`app.py` lines 112-130).
`captured` is what `self.window_tracker.capture()` would return;
`startErr` is `some e` when `self.recorder.start()` raises `e`.
Returns the successor state, the backend effects performed, and the
method's outcome (`Except.error e` models the re-raised exception). -/
def start_recording (s : AppState) (captured : Option ActiveWindow)
    (startErr : Option String) :
    AppState × List AppEvent × Except String Bool :=
  if s.isRecording then
    (s, [], Except.ok false)
  else
    let s1 : AppState := { s with isRecording := true, activeWindow := captured }
    match startErr with
    | none => (s1, [AppEvent.captureWindow, AppEvent.recorderStart], Except.ok true)
    | some e =>
        ({ s1 with isRecording := false, activeWindow := none },
         [AppEvent.captureWindow, AppEvent.recorderStart], Except.error e)

/-- `VoiceInputApp.stop_recording` (`app.py` lines 132-142).
`now` is the `time.monotonic()` reading taken under the lock. -/
def stop_recording (s : AppState) (now : ℚ) :
    AppState × List AppEvent × Bool :=
  if s.isRecording then
    ({ s with isRecording := false, lastReleaseAt := now },
     [AppEvent.spawnFinalize], true)
  else
    (s, [], false)

/-- `VoiceInputApp._on_hotkey_release` (`app.py` lines 149-160).
`now` is the `time.monotonic()` reading taken at entry; `nowStop` is the
(slightly later) reading `stop_recording` would take; `debounce` is
`config.hotkey.release_timeout_s` (default `0.3`). -/
def on_hotkey_release (s : AppState) (now nowStop : ℚ) (debounce : ℚ) :
    AppState × List AppEvent :=
  if s.isRecording then
    let r := stop_recording s nowStop
    (r.1, r.2.1)
  else
    if now - s.lastReleaseAt < debounce then
      (s, [])
    else
      ({ s with lastReleaseAt := now }, [])

/-- Default `HotkeyConfig.release_timeout_s` (`config.py`): `0.3`. -/
def defaultReleaseTimeout : ℚ := 3 / 10

/-- `VoiceInputApp.toggle_recording` (`app.py` lines 106-110):
`if not self.stop_recording(): self.start_recording()`.
The last component is `some e` when the inner `start_recording`
raised `e` (the exception escapes `toggle_recording` too). -/
def toggle_recording (s : AppState) (now : ℚ)
    (captured : Option ActiveWindow) (startErr : Option String) :
    AppState × List AppEvent × Option String :=
  match stop_recording s now with
  | (s1, ev1, true) => (s1, ev1, none)
  | (s1, ev1, false) =>
      match start_recording s1 captured startErr with
      | (s2, ev2, Except.ok _) => (s2, ev1 ++ ev2, none)
      | (s2, ev2, Except.error e) => (s2, ev1 ++ ev2, some e)

/-- Side effects performed by `TextEmitter.emit` (`text_output.py`),
in execution order. -/
inductive EmitEffect where
  /-- `clipboard_module.copy(text)` -/
  | clipboardCopy (text : String)
  /-- `window_tracker.focus(target_window)` -/
  | focusWindow (w : ActiveWindow)
  /-- `keyboard_module.send(paste_hotkey)` -/
  | sendCombination (keys : String)
  /-- `keyboard_module.write(text)` -/
  | typeText (text : String)
deriving DecidableEq, Repr

/-- The configuration fields of `TextEmitter` (`text_output.py`). -/
structure TextEmitter where
  insert_text : Bool := true
  copy_to_clipboard : Bool := true
  paste_hotkey : String := "ctrl+v"
deriving Repr

/-- Presence of the duck-typed backend modules `TextEmitter.emit`
depends on: a clipboard module providing `copy`, a keyboard module,
whether it has `send` / `write`, and a window tracker. -/
structure Backends where
  clipboardPresent : Bool := true
  keyboardPresent : Bool := true
  keyboardHasSend : Bool := true
  keyboardHasWrite : Bool := true
  trackerPresent : Bool := true
deriving Repr

/-- `TextEmitter.emit` (`text_output.py` lines 45-83) together with its
helpers `_copy_to_clipboard`, `_focus_window` and `_insert_text`.
Returns the effects performed in order and `some err` when the call
raises. `_focus_window` performs the `tracker.focus` request only when
both a target window and a tracker are present. -/
def TextEmitter.emit (e : TextEmitter) (b : Backends) (text : String)
    (target : Option ActiveWindow) : List EmitEffect × Option String :=
  if text = "" then ([], none)
  else if e.copy_to_clipboard && !b.clipboardPresent then
    ([], some "pyperclip is required to copy text to the clipboard")
  else
    let copyEffs := if e.copy_to_clipboard then [EmitEffect.clipboardCopy text] else []
    if e.insert_text then
      let focusEffs :=
        match target with
        | some w => if b.trackerPresent then [EmitEffect.focusWindow w] else []
        | none => []
      if !b.keyboardPresent then
        (copyEffs ++ focusEffs, some "keyboard is required to send key events")
      else if e.copy_to_clipboard && b.keyboardHasSend then
        (copyEffs ++ focusEffs ++ [EmitEffect.sendCombination e.paste_hotkey], none)
      else if b.keyboardHasWrite then
        (copyEffs ++ focusEffs ++ [EmitEffect.typeText text], none)
      else
        (copyEffs ++ focusEffs, some "Keyboard module must provide send() or write()")
    else
      (copyEffs, none)

/-- Reinterpret an unsigned 16-bit value as the signed 16-bit integer
with the same two's-complement bit pattern, as `np.frombuffer` with
`dtype=np.int16` does. -/
def toSigned16 (n : Nat) : Int :=
  if n < 32768 then (n : Int) else (n : Int) - 65536

/-- Decode a little-endian byte stream into int16 samples, as
`np.frombuffer(raw_audio, dtype=np.int16)` does; a trailing odd byte
cannot occur for a buffer of whole int16 frames. -/
def decodeInt16LE : List Nat → List Int
  | lo :: hi :: rest => toSigned16 (lo + 256 * hi) :: decodeInt16LE rest
  | _ => []

/-- `AudioRecorder.stop` (`audio.py` lines 77-95), restricted to the
conversion it performs on the drained queue for the configured default
format `int16`: concatenate the buffered chunks, reinterpret the bytes
as int16 samples, and divide each by `float(np.iinfo(np.int16).max)`,
i.e. by `32767`. No chunks buffered yields the empty sample vector. -/
def recorder_stop (chunks : List (List Nat)) : List ℚ :=
  (decodeInt16LE chunks.flatten).map (fun v : ℤ => (v : ℚ) / 32767)

/-- Round half to even on rationals, the semantics of Python's builtin
`round` used by `_resample_audio` for the output length. -/
def roundHalfEven (q : ℚ) : ℤ :=
  if q - ⌊q⌋ < 1 / 2 then ⌊q⌋
  else if 1 / 2 < q - ⌊q⌋ then ⌊q⌋ + 1
  else if ⌊q⌋ % 2 = 0 then ⌊q⌋ else ⌊q⌋ + 1

/-- `np.interp` evaluated at position `p` against the sample points
`0, 1, ..., x.length - 1` with values `x`: clamp outside the range,
linear interpolation between the neighbouring integer positions
inside. Only called on non-empty `x`. -/
def interpAt (x : List ℚ) (p : ℚ) : ℚ :=
  if p ≤ 0 then x.headI
  else if ((x.length : ℚ) - 1) ≤ p then x.getLastI
  else
    let j : ℕ := (⌊p⌋).toNat
    let x0 := x.getD j 0
    let x1 := x.getD (j + 1) 0
    x0 + (p - (j : ℚ)) * (x1 - x0)

/-- `_resample_audio` (`transcriber.py` lines 47-63). If the rates are
equal the input comes back unchanged (`np.asarray` of a float vector).
Otherwise the output length is `max(int(round(n * target/orig)), 1)`
and the samples are `np.interp` of `x` at `new_length` evenly spaced
positions over `[0, n-1]`; `np.interp` raises
`ValueError: array of sample points is empty` when `x` is empty, which
the code does not guard against. -/
def resample_audio (x : List ℚ) (origRate targetRate : ℤ) :
    Except String (List ℚ) :=
  if origRate = targetRate then Except.ok x
  else
    let newLength : ℕ :=
      max (roundHalfEven ((x.length : ℚ) * ((targetRate : ℚ) / (origRate : ℚ)))).toNat 1
    if x.isEmpty then Except.error "array of sample points is empty"
    else
      let targetPositions : List ℚ :=
        if newLength = 1 then [0]
        else (List.range newLength).map
          (fun i : ℕ => ((x.length : ℚ) - 1) * (i : ℚ) / ((newLength : ℚ) - 1))
      Except.ok (targetPositions.map (interpAt x))

/-- Python strings manipulated character by character. -/
abbrev PyStr := List Char

/-- Whitespace in the sense of Python's `str.strip()` / `str.split()`. -/
def isWS (c : Char) : Bool := c.isWhitespace

/-- Python `str.strip()`: drop leading and trailing whitespace. -/
def pyStrip (s : PyStr) : PyStr :=
  ((s.dropWhile isWS).reverse.dropWhile isWS).reverse

/-- The maximal runs of a string delimited by whitespace characters,
empty runs included (one run between every two adjacent whitespace
characters and at both ends). -/
def splitRuns : PyStr → List PyStr
  | [] => [[]]
  | c :: s =>
      if isWS c then [] :: splitRuns s
      else
        match splitRuns s with
        | [] => [[c]]
        | w :: ws => (c :: w) :: ws

/-- Python `str.split()` with no argument: the maximal non-empty
whitespace-free runs. -/
def pySplit (s : PyStr) : List PyStr :=
  (splitRuns s).filter (fun w => w ≠ [])

/-- Join a list of strings with a single space character,
Python's `" ".join(...)`. -/
def joinSp : List PyStr → PyStr
  | [] => []
  | [w] => w
  | w :: ws => w ++ ' ' :: joinSp ws

/-- `_clean_text` (`transcriber.py` lines 127-128):
`" ".join(text.strip().split())`. -/
def clean_text (t : PyStr) : PyStr := joinSp (pySplit (pyStrip t))

/-- A raw segment as returned by the recognizer backend: the attributes
`SpeechRecognizer.transcribe` reads from it. -/
structure RawSegment where
  text : PyStr
  start : Option ℚ := none
  endTime : Option ℚ := none

/-- `Segment` from `transcriber.py`: a normalised recognised segment. -/
structure Segment where
  text : PyStr
  start : Option ℚ
  endTime : Option ℚ
deriving DecidableEq

/-- The segment-normalisation step of `SpeechRecognizer.transcribe`
(`transcriber.py` lines 100-104): keep the segments whose stripped text
is non-empty (Python truthiness of `seg.text.strip()`), and clean each
survivor's text with `_clean_text`. -/
def normalizeSegments (segs : List RawSegment) : List Segment :=
  (segs.filter (fun s => pyStrip s.text ≠ [])).map
    (fun s => ⟨clean_text s.text, s.start, s.endTime⟩)

/-- The full-text computation of `SpeechRecognizer.transcribe`
(`transcriber.py` line 105):
`" ".join(segment.text for segment in normalised_segments).strip()`. -/
def transcribeText (segs : List RawSegment) : PyStr :=
  pyStrip (joinSp ((normalizeSegments segs).map (fun s => s.text)))

/-- Modelled from the spec's normalization rules (§4.4): trim and
collapse internal whitespace of each segment's text, drop segments
whose trimmed text is empty, and join the surviving segment texts with
a single space to form the result's full text (no further trimming). -/
def specJoinedText (segs : List RawSegment) : PyStr :=
  joinSp ((segs.map (fun s => clean_text s.text)).filter (fun t => t ≠ []))

/-- Modelled from the spec's normalization rules (§4.4): the surviving
segment texts, each trimmed and with internal whitespace collapsed. -/
def specSegmentTexts (segs : List RawSegment) : List PyStr :=
  (segs.map (fun s => clean_text s.text)).filter (fun t => t ≠ [])

/-! ## Claims about the session state machine -/

/-- C1: calling `start_recording` while the session is already Recording
returns false and performs no side effect: the state (so in particular
`isRecording` and the captured window) is unchanged and no backend
effect — neither a window capture nor a recorder start — occurs. -/
theorem C1_start_noop_when_recording (s : AppState)
    (captured : Option ActiveWindow) (startErr : Option String)
    (h : s.isRecording = true) :
    start_recording s captured startErr = (s, [], Except.ok false) := by
  simp [start_recording, h]

/-- Witness for C1 at a concrete Recording state. -/
theorem C1_witness :
    (AppState.mk true 0 none).isRecording = true ∧
    start_recording ⟨true, 0, none⟩ (some ⟨7, "w"⟩) none
      = (⟨true, 0, none⟩, [], Except.ok false) :=
  ⟨rfl, C1_start_noop_when_recording _ _ _ rfl⟩

/-- C2: a release event delivered while Idle never triggers a stop or a
finalize. If it arrives strictly within the debounce window of
`lastReleaseAt` it is dropped with no state change at all; otherwise
only `lastReleaseAt` is refreshed to the event time. In both cases the
list of backend effects is empty (no finalization is spawned). -/
theorem C2_release_while_idle (s : AppState) (now nowStop debounce : ℚ)
    (h : s.isRecording = false) :
    on_hotkey_release s now nowStop debounce =
      (if now - s.lastReleaseAt < debounce then (s, [])
       else ({ s with lastReleaseAt := now }, [])) ∧
    (on_hotkey_release s now nowStop debounce).2 = [] := by
  refine ⟨by simp [on_hotkey_release, h], ?_⟩
  simp only [on_hotkey_release, h, Bool.false_eq_true, if_false]
  split <;> rfl

/-- Witness for C2: a duplicate release 0.1 s after the last one, with
the default 0.3 s debounce window, is dropped without a state change. -/
theorem C2_witness :
    (AppState.mk false 10 none).isRecording = false ∧
    on_hotkey_release ⟨false, 10, none⟩ (101 / 10) (101 / 10) defaultReleaseTimeout
      = (⟨false, 10, none⟩, []) := by
  refine ⟨rfl, ?_⟩
  have h := (C2_release_while_idle ⟨false, 10, none⟩ (101 / 10) (101 / 10)
    defaultReleaseTimeout rfl).1
  rw [h, if_pos (by norm_num [defaultReleaseTimeout])]

/-- C3: when `start_recording` runs from Idle and the capture backend's
start raises `e`, the error is re-raised to the caller unchanged, the
session is rolled back to Idle (`isRecording = false`), the captured
window field is cleared, and `lastReleaseAt` is untouched. -/
theorem C3_start_failure_rollback (s : AppState)
    (captured : Option ActiveWindow) (e : String)
    (h : s.isRecording = false) :
    start_recording s captured (some e) =
      (⟨false, s.lastReleaseAt, none⟩,
       [AppEvent.captureWindow, AppEvent.recorderStart], Except.error e) := by
  simp [start_recording, h]

/-- Witness for C3 at a concrete Idle state and a concrete device
error. -/
theorem C3_witness :
    (AppState.mk false 2 none).isRecording = false ∧
    start_recording ⟨false, 2, none⟩ (some ⟨7, "w"⟩) (some "DeviceError")
      = (⟨false, 2, none⟩, [AppEvent.captureWindow, AppEvent.recorderStart],
         Except.error "DeviceError") :=
  ⟨rfl, C3_start_failure_rollback ⟨false, 2, none⟩ (some ⟨7, "w"⟩) "DeviceError" rfl⟩

/-- C10: `toggle_recording` flips the session state. Called while
Recording it returns exactly what `stop_recording` produces (state and
effects, no error); called while Idle the no-op `stop_recording`
returns false and it then behaves exactly like `start_recording`
(same state, same effects, and any error of the backend start
escapes). -/
theorem C10_toggle_recording (s : AppState) (now : ℚ)
    (captured : Option ActiveWindow) (startErr : Option String) :
    (s.isRecording = true →
      toggle_recording s now captured startErr
        = ((stop_recording s now).1, (stop_recording s now).2.1, none)) ∧
    (s.isRecording = false →
      toggle_recording s now captured startErr
        = ((start_recording s captured startErr).1,
           (start_recording s captured startErr).2.1,
           match (start_recording s captured startErr).2.2 with
           | Except.ok _ => none
           | Except.error e => some e)) := by
  constructor
  · intro h
    simp [toggle_recording, stop_recording, h]
  · intro h
    rcases he : start_recording s captured startErr with ⟨s2, ev2, r⟩
    cases r <;> simp [toggle_recording, stop_recording, h, he]

/-- Witness for C10: toggling in a Recording state stops and spawns the
finalizer; toggling in an Idle state starts a new session. -/
theorem C10_witness :
    toggle_recording ⟨true, 0, none⟩ 5 none none
      = (⟨false, 5, none⟩, [AppEvent.spawnFinalize], none) ∧
    toggle_recording ⟨false, 0, none⟩ 5 (some ⟨1, "w"⟩) none
      = (⟨true, 0, some ⟨1, "w"⟩⟩,
         [AppEvent.captureWindow, AppEvent.recorderStart], none) := by
  constructor
  · have h := (C10_toggle_recording ⟨true, 0, none⟩ 5 none none).1 rfl
    rw [h]; rfl
  · have h := (C10_toggle_recording ⟨false, 0, none⟩ 5 (some ⟨1, "w"⟩) none).2 rfl
    rw [h]; rfl

/-! ## Claims about the emission sequencer and the window handle -/

/-- C8: with clipboard-copy and text-insertion both enabled and all
backends present, `emit` on a non-empty text and a present target
window performs exactly the clipboard copy, then the focus restore,
then the paste-combination injection, in that order and nothing else;
and `emit` on empty text performs no side effect at all. -/
theorem C8_emit_order (e : TextEmitter) (b : Backends) (text : String)
    (w : ActiveWindow)
    (hIns : e.insert_text = true) (hCopy : e.copy_to_clipboard = true)
    (hClip : b.clipboardPresent = true) (hKb : b.keyboardPresent = true)
    (hSend : b.keyboardHasSend = true) (hTr : b.trackerPresent = true)
    (hText : text ≠ "") :
    e.emit b text (some w)
      = ([EmitEffect.clipboardCopy text, EmitEffect.focusWindow w,
          EmitEffect.sendCombination e.paste_hotkey], none) ∧
    ∀ target, e.emit b "" target = ([], none) := by
  constructor
  · simp [TextEmitter.emit, hIns, hCopy, hClip, hKb, hSend, hTr, hText]
  · intro target
    simp [TextEmitter.emit]

/-- Witness for C8 with the default emitter configuration, all backends
present, the text "hello world" and a concrete target window. -/
theorem C8_witness :
    ("hello world" ≠ "") ∧
    TextEmitter.emit {} {} "hello world" (some ⟨1, "editor"⟩)
      = ([EmitEffect.clipboardCopy "hello world",
          EmitEffect.focusWindow ⟨1, "editor"⟩,
          EmitEffect.sendCombination "ctrl+v"], none) :=
  ⟨by decide,
   (C8_emit_order {} {} "hello world" ⟨1, "editor"⟩ rfl rfl rfl rfl rfl rfl
     (by decide)).1⟩

/-- C9 counterexample: two `ActiveWindow` values with the same opaque
identifier but different display titles are NOT equal under the
dataclass-generated equality, refuting equality-by-identifier-only. -/
theorem C9_counterexample :
    (ActiveWindow.mk 1 "a").handle = (ActiveWindow.mk 1 "b").handle ∧
    activeWindowEq ⟨1, "a"⟩ ⟨1, "b"⟩ = false :=
  ⟨rfl, by decide⟩

/-- C9 amended: equality of `ActiveWindow` values is the structural
equality of the frozen dataclass, comparing identifier AND title: two
handles are equal exactly when both fields agree, so handles with the
same identifier but different titles are unequal. -/
theorem C9_window_equality (a b : ActiveWindow) :
    activeWindowEq a b = true ↔ a.handle = b.handle ∧ a.title = b.title := by
  simp [activeWindowEq]

/-! ## Claims about the capture buffer conversion -/

theorem toSigned16_bounds (n : Nat) (h : n ≤ 65535) :
    -32768 ≤ toSigned16 n ∧ toSigned16 n ≤ 32767 := by
  unfold toSigned16
  split <;> omega

theorem decodeInt16LE_bounds : ∀ bytes : List Nat, (∀ b ∈ bytes, b < 256) →
    ∀ v ∈ decodeInt16LE bytes, -32768 ≤ v ∧ v ≤ 32767 := by
  intro bytes
  induction bytes using decodeInt16LE.induct with
  | case1 lo hi rest ih =>
      intro h v hv
      rw [decodeInt16LE] at hv
      rcases List.mem_cons.mp hv with rfl | hv'
      · have hlo : lo < 256 := h lo (by simp)
        have hhi : hi < 256 := h hi (by simp)
        exact toSigned16_bounds _ (by omega)
      · exact ih (fun b hb => h b (by simp [hb])) v hv'
  | case2 t ht =>
      intro h v hv
      match t, ht, hv with
      | [], _, hv => simp [decodeInt16LE] at hv
      | [b], _, hv => simp [decodeInt16LE] at hv
      | lo :: hi :: rest, ht, _ => exact (ht lo hi rest rfl).elim

/-- C4 counterexample: a single buffered int16 chunk holding the most
negative sample, the little-endian bytes `[0x00, 0x80]`, is converted
to `-32768 / 32767`, which lies strictly below `-1.0`: the conversion
divides by the format's maximum positive value 32767, not by the
maximum magnitude 32768, so the Sample Vector is not contained in
`[-1.0, 1.0]`. -/
theorem C4_counterexample :
    recorder_stop [[0, 128]] = [-(32768 : ℚ) / 32767] ∧
    (-(32768 : ℚ) / 32767) < -1 := by
  constructor
  · simp [recorder_stop, decodeInt16LE, toSigned16]
  · norm_num

/-- C4 amended: for every sequence of buffered PCM chunks of bytes in
the int16 format, every element of the Sample Vector returned by
`stop()` lies in the range `[-32768/32767, 1.0]` — each integer sample
is divided by the format's maximum positive value `32767`, so all
samples except the most negative one land in `[-1.0, 1.0]` and the
most negative sample lands slightly below `-1.0`. -/
theorem C4_sample_range (chunks : List (List Nat))
    (h : ∀ chunk ∈ chunks, ∀ b ∈ chunk, b < 256) :
    ∀ y ∈ recorder_stop chunks, -(32768 : ℚ) / 32767 ≤ y ∧ y ≤ 1 := by
  intro y hy
  simp only [recorder_stop, List.mem_map] at hy
  obtain ⟨v, hv, rfl⟩ := hy
  have hb : ∀ b ∈ chunks.flatten, b < 256 := by
    intro b hbmem
    rw [List.mem_flatten] at hbmem
    obtain ⟨c, hc, hbc⟩ := hbmem
    exact h c hc b hbc
  have hvb := decodeInt16LE_bounds chunks.flatten hb v hv

  constructor
  · rw [div_le_div_iff_of_pos_right (by norm_num : (0 : ℚ) < 32767)]
    exact_mod_cast hvb.1
  · rw [div_le_one (by norm_num : (0 : ℚ) < 32767)]
    exact_mod_cast hvb.2

/-- Witness for C4 on two valid chunks holding the samples 1000 and
-1000. -/
theorem C4_witness :
    (∀ chunk ∈ [[232, 3], [24, 252]], ∀ b ∈ chunk, b < 256) ∧
    ∀ y ∈ recorder_stop [[232, 3], [24, 252]],
      -(32768 : ℚ) / 32767 ≤ y ∧ y ≤ 1 :=
  ⟨by decide, C4_sample_range [[232, 3], [24, 252]] (by decide)⟩

/-! ## Claims about the resampler -/

/-- C5 counterexample: resampling the empty sample sequence between two
distinct rates does not return a sequence of length 1; the unguarded
`np.interp` call raises on an empty array of sample points. -/
theorem C5_counterexample :
    resample_audio ([] : List ℚ) 8000 16000
      = Except.error "array of sample points is empty" := by
  simp [resample_audio]

/-- C5 amended: for every NON-empty mono sample sequence and every pair
of distinct rates, resampling succeeds and the output length is
`round(len(x) * targetRate / sourceRate)` (round half to even), with a
minimum of 1; for the empty sequence the function instead raises the
interpolation error. -/
theorem C5_resample_length (x : List ℚ) (s t : ℤ)
    (hx : x ≠ []) (hst : s ≠ t) :
    ∃ y, resample_audio x s t = Except.ok y ∧
      y.length
        = max (roundHalfEven ((x.length : ℚ) * ((t : ℚ) / (s : ℚ)))).toNat 1 := by
  have hempty : x.isEmpty = false := by
    simpa [List.isEmpty_iff] using hx
  by_cases h1 :
      max (roundHalfEven ((x.length : ℚ) * ((t : ℚ) / (s : ℚ)))).toNat 1 = 1
  · refine ⟨[interpAt x 0], ?_, ?_⟩
    · simp [resample_audio, hst, hempty, h1]
    · simp [h1]
  · refine ⟨((List.range
        (max (roundHalfEven ((x.length : ℚ) * ((t : ℚ) / (s : ℚ)))).toNat 1)).map
        (fun i : ℕ => ((x.length : ℚ) - 1) * (i : ℚ)
          / (((max (roundHalfEven ((x.length : ℚ) * ((t : ℚ) / (s : ℚ)))).toNat 1 : ℕ) : ℚ)
              - 1))).map (interpAt x), ?_, ?_⟩
    · simp [resample_audio, hst, hempty, h1]
    · simp

/-- Witness for C5: three samples resampled from 8 kHz to 16 kHz give
an output of length 6 = round(3 * 16000 / 8000). -/
theorem C5_witness :
    ([1, 2, 3] : List ℚ) ≠ [] ∧ (8000 : ℤ) ≠ 16000 ∧
    ∃ y, resample_audio ([1, 2, 3] : List ℚ) 8000 16000 = Except.ok y ∧
      y.length = 6 := by
  refine ⟨by simp, by decide, ?_⟩
  obtain ⟨y, hy, hlen⟩ :=
    C5_resample_length ([1, 2, 3] : List ℚ) 8000 16000 (by simp) (by decide)
  refine ⟨y, hy, ?_⟩
  rw [hlen]
  norm_num [roundHalfEven]
  decide

/-- C6: resampling with equal source and target rates returns the input
unchanged. -/
theorem C6_resample_identity (x : List ℚ) (r : ℤ) :
    resample_audio x r r = Except.ok x := by
  simp [resample_audio]

/-! ## Claims about recognizer-output normalization

Helper lemmas about `pyStrip`, `splitRuns`, `pySplit` and `joinSp`. -/

theorem splitRuns_ne_nil (s : PyStr) : splitRuns s ≠ [] := by
  induction s with
  | nil => simp [splitRuns]
  | cons c s ih =>
      rw [splitRuns]
      split
      · simp
      · split <;> simp

theorem splitRuns_chars (s : PyStr) :
    ∀ w ∈ splitRuns s, ∀ c ∈ w, isWS c = false := by
  induction s with
  | nil =>
      intro w hw c hc
      simp [splitRuns] at hw
      subst hw
      simp at hc
  | cons a s ih =>
      intro w hw c hc
      rw [splitRuns] at hw
      by_cases ha : isWS a
      · rw [if_pos ha] at hw
        rcases List.mem_cons.mp hw with rfl | hw'
        · simp at hc
        · exact ih w hw' c hc
      · rw [if_neg ha] at hw
        rcases hs : splitRuns s with _ | ⟨w0, ws0⟩
        · rw [hs] at hw
          simp at hw
          subst hw
          simp at hc
          subst hc
          simpa using ha
        · rw [hs] at hw
          rcases List.mem_cons.mp hw with rfl | hw'
          · rcases List.mem_cons.mp hc with rfl | hc'
            · simpa using ha
            · exact ih w0 (hs ▸ List.mem_cons_self w0 ws0) c hc'
          · exact ih w (hs ▸ List.mem_cons.mpr (Or.inr hw')) c hc

theorem pySplit_good (s : PyStr) :
    ∀ w ∈ pySplit s, w ≠ [] ∧ ∀ c ∈ w, isWS c = false := by
  intro w hw
  rw [pySplit, List.mem_filter] at hw
  refine ⟨by simpa using hw.2, splitRuns_chars s w hw.1⟩

theorem pySplit_ne_nil (s : PyStr) (h : ∃ c ∈ s, isWS c = false) :
    pySplit s ≠ [] := by
  induction s with
  | nil => simp at h
  | cons a s ih =>
      by_cases ha : isWS a
      · have h' : ∃ c ∈ s, isWS c = false := by
          rcases h with ⟨c, hc, hcw⟩
          rcases List.mem_cons.mp hc with rfl | hc'
          · rw [ha] at hcw
            cases hcw
          · exact ⟨c, hc', hcw⟩
        have := ih h'
        rw [pySplit, splitRuns, if_pos ha]
        rw [pySplit] at this
        simpa using this
      · rw [pySplit, splitRuns, if_neg ha]
        rcases hs : splitRuns s with _ | ⟨w0, ws0⟩
        · exact absurd hs (splitRuns_ne_nil s)
        · simp

theorem joinSp_cons_cons (w v : PyStr) (vs : List PyStr) :
    joinSp (w :: v :: vs) = w ++ ' ' :: joinSp (v :: vs) := rfl

theorem joinSp_ne_nil (ts : List PyStr) (hts : ts ≠ [])
    (h : ∀ w ∈ ts, w ≠ []) : joinSp ts ≠ [] := by
  match ts with
  | [] => exact absurd rfl hts
  | [w] =>
      rw [joinSp]
      exact h w (by simp)
  | w :: v :: vs =>
      rw [joinSp_cons_cons]
      rcases hw : w with _ | ⟨a, w'⟩
      · exact absurd rfl (hw ▸ h w (by simp))
      · simp

theorem dropWhile_head_not (s : PyStr) (a : Char) (r : PyStr)
    (h : s.dropWhile isWS = a :: r) : isWS a = false := by
  induction s with
  | nil => simp at h
  | cons c s ih =>
      rw [List.dropWhile_cons] at h
      by_cases hc : isWS c
      · rw [if_pos hc] at h
        exact ih h
      · rw [if_neg hc] at h
        cases h
        simpa using hc

theorem dropWhile_fix (s : PyStr)
    (h : ∀ a, s.head? = some a → isWS a = false) :
    s.dropWhile isWS = s := by
  cases s with
  | nil => rfl
  | cons a t =>
      rw [List.dropWhile_cons, if_neg]
      simp [h a rfl]

theorem pyStrip_fix (s : PyStr)
    (h1 : ∀ a, s.head? = some a → isWS a = false)
    (h2 : ∀ a, s.getLast? = some a → isWS a = false) :
    pyStrip s = s := by
  rw [pyStrip, dropWhile_fix s h1, dropWhile_fix s.reverse
    (by intro a ha; exact h2 a (by rwa [List.head?_reverse] at ha)),
    List.reverse_reverse]

theorem pyStrip_has_nonws (t : PyStr) (h : pyStrip t ≠ []) :
    ∃ a ∈ pyStrip t, isWS a = false := by
  rw [pyStrip] at h ⊢
  rcases hu : (t.dropWhile isWS).reverse.dropWhile isWS with _ | ⟨a, r⟩
  · rw [hu] at h
    simp at h
  · refine ⟨a, ?_, dropWhile_head_not _ a r hu⟩
    simp

theorem clean_text_eq_nil_iff (t : PyStr) :
    clean_text t = [] ↔ pyStrip t = [] := by
  constructor
  · intro h
    by_contra hne
    obtain ⟨a, ha, haw⟩ := pyStrip_has_nonws t hne
    have hsplit := pySplit_ne_nil (pyStrip t) ⟨a, ha, haw⟩
    have hjoin := joinSp_ne_nil (pySplit (pyStrip t)) hsplit
      (fun w hw => (pySplit_good (pyStrip t) w hw).1)
    exact hjoin h
  · intro h
    rw [clean_text, h]
    rfl

theorem joinSp_head? (w : PyStr) (ws : List PyStr) (hw : w ≠ []) :
    (joinSp (w :: ws)).head? = w.head? := by
  cases ws with
  | nil => rfl
  | cons v vs =>
      rw [joinSp_cons_cons]
      exact List.head?_append_of_ne_nil w hw

theorem joinSp_getLast? (ts : List PyStr) (hts : ts ≠ [])
    (h : ∀ w ∈ ts, w ≠ []) :
    ∃ u ∈ ts, (joinSp ts).getLast? = u.getLast? := by
  induction ts with
  | nil => exact absurd rfl hts
  | cons w rest ih =>
      cases rest with
      | nil => exact ⟨w, by simp, by rw [joinSp]⟩
      | cons v vs =>
          obtain ⟨u, hu, hlast⟩ := ih (by simp)
            (fun x hx => h x (List.mem_cons.mpr (Or.inr hx)))
          refine ⟨u, List.mem_cons.mpr (Or.inr hu), ?_⟩
          rw [joinSp_cons_cons, List.getLast?_append_of_ne_nil w (by simp)]
          have hj : joinSp (v :: vs) ≠ [] :=
            joinSp_ne_nil (v :: vs) (by simp)
              (fun x hx => h x (List.mem_cons.mpr (Or.inr hx)))
          rcases hjj : joinSp (v :: vs) with _ | ⟨b, bs⟩
          · exact absurd hjj hj
          · rw [List.getLast?_cons_cons, ← hjj, hlast]

theorem clean_text_good (t : PyStr) (h : pyStrip t ≠ []) :
    clean_text t ≠ [] ∧
    (∀ a, (clean_text t).head? = some a → isWS a = false) ∧
    (∀ a, (clean_text t).getLast? = some a → isWS a = false) := by
  obtain ⟨c, hc, hcw⟩ := pyStrip_has_nonws t h
  have hsplit := pySplit_ne_nil (pyStrip t) ⟨c, hc, hcw⟩
  have hgood := pySplit_good (pyStrip t)
  refine ⟨fun hnil => h ((clean_text_eq_nil_iff t).mp hnil), ?_, ?_⟩
  · intro a ha
    rw [clean_text] at ha
    rcases hs : pySplit (pyStrip t) with _ | ⟨w, ws⟩
    · exact absurd hs hsplit
    · rw [hs, joinSp_head? w ws (hgood w (hs ▸ List.mem_cons_self w ws)).1] at ha
      exact (hgood w (hs ▸ List.mem_cons_self w ws)).2 a
        (List.mem_of_mem_head? ha)
  · intro a ha
    rw [clean_text] at ha
    obtain ⟨u, hu, hlast⟩ := joinSp_getLast? (pySplit (pyStrip t)) hsplit
      (fun w hw => (hgood w hw).1)
    rw [hlast] at ha
    exact (hgood u hu).2 a (List.mem_of_getLast?_eq_some ha)

theorem pyStrip_joinSp_fix (ts : List PyStr)
    (h : ∀ w ∈ ts, w ≠ [] ∧
      (∀ a, w.head? = some a → isWS a = false) ∧
      (∀ a, w.getLast? = some a → isWS a = false)) :
    pyStrip (joinSp ts) = joinSp ts := by
  cases ts with
  | nil => rfl
  | cons w rest =>
      apply pyStrip_fix
      · intro a ha
        rw [joinSp_head? w rest (h w (by simp)).1] at ha
        exact (h w (by simp)).2.1 a ha
      · intro a ha
        obtain ⟨u, hu, hlast⟩ := joinSp_getLast? (w :: rest) (by simp)
          (fun x hx => (h x hx).1)
        rw [hlast] at ha
        exact (h u hu).2.2 a ha

theorem normalize_texts_eq (segs : List RawSegment) :
    (normalizeSegments segs).map (fun s => s.text) = specSegmentTexts segs := by
  rw [normalizeSegments, specSegmentTexts]
  induction segs with
  | nil => rfl
  | cons a l ih =>
      simp only [List.map_cons, List.filter_cons]
      by_cases h : pyStrip a.text = []
      · have hc : clean_text a.text = [] := (clean_text_eq_nil_iff a.text).mpr h
        simpa [h, hc, Function.comp] using ih
      · have hc : clean_text a.text ≠ [] :=
          fun hnil => h ((clean_text_eq_nil_iff a.text).mp hnil)
        simpa [h, hc, Function.comp] using ih

/-- The concrete example segments of the claim:
`[" Hello", "world! ", ""]`. -/
def exampleSegments : List RawSegment :=
  [⟨" Hello".toList, none, none⟩, ⟨"world! ".toList, none, none⟩,
   ⟨"".toList, none, none⟩]

/-- C7: for every ordered sequence of raw recognizer segments the
normalization keeps exactly the segments whose trimmed text is
non-empty, cleans each survivor's text (trim and collapse internal
whitespace), and the result's full text is the surviving cleaned texts
joined by a single space (the code's final `.strip()` is the identity
there); in particular the segments `[" Hello", "world! ", ""]` yield
the text `"Hello world!"` with exactly 2 surviving segments. -/
theorem C7_normalization :
    (∀ segs : List RawSegment,
      (normalizeSegments segs).map (fun s => s.text) = specSegmentTexts segs ∧
      transcribeText segs = specJoinedText segs) ∧
    transcribeText exampleSegments = "Hello world!".toList ∧
    (normalizeSegments exampleSegments).length = 2 := by
  refine ⟨fun segs => ⟨normalize_texts_eq segs, ?_⟩, ?_, ?_⟩
  · rw [transcribeText, specJoinedText, normalize_texts_eq segs]
    apply pyStrip_joinSp_fix
    intro w hw
    rw [specSegmentTexts, List.mem_filter] at hw
    obtain ⟨hwmap, hwne⟩ := hw
    obtain ⟨s0, _, rfl⟩ := List.mem_map.mp hwmap
    have hstrip : pyStrip s0.text ≠ [] := by
      intro hnil
      have : clean_text s0.text = [] := (clean_text_eq_nil_iff s0.text).mpr hnil
      simp [this] at hwne
    exact clean_text_good s0.text hstrip
  · rfl
  · rfl

end VoiceInput
